import Mathlib

/-!
Shallow embedding of the command-interpretation core of a Go shell
(tokenizer, PATH resolver, redirection parsing, single-command executor,
pipeline close bookkeeping, tab-completion engine), with theorems checking
the specification's claims against the embedded code.
-/

namespace Shell

/-! ## Tokenizer (ParseArgs, src/unnamed/part_003) -/

/-- The tokenizer's loop state: emitted arguments, the current partial
argument (strings.Builder), and the three flags. -/
structure ParseState where
  args : List String
  curr : List Char
  inSingle : Bool
  inDouble : Bool
  escaped : Bool
deriving DecidableEq, Repr

/-- One iteration of the ParseArgs loop body on character c. -/
def parseStep (s : ParseState) (c : Char) : ParseState :=
  if s.escaped then
    if s.inDouble then
      if c == '\\' || c == '"' then
        { s with curr := s.curr ++ [c], escaped := false }
      else
        { s with curr := s.curr ++ ['\\', c], escaped := false }
    else
      { s with curr := s.curr ++ [c], escaped := false }
  else if c == '\\' && !s.inSingle then
    { s with escaped := true }
  else if c == '\'' && !s.inDouble then
    { s with inSingle := !s.inSingle }
  else if c == '"' && !s.inSingle then
    { s with inDouble := !s.inDouble }
  else if (c == ' ' || c == '\t') && !s.inSingle && !s.inDouble then
    if s.curr.length > 0 then
      { s with args := s.args ++ [String.mk s.curr], curr := [] }
    else
      s
  else
    { s with curr := s.curr ++ [c] }

/-- Run the loop over a list of characters. -/
def parseRun (s : ParseState) (cs : List Char) : ParseState :=
  cs.foldl parseStep s

/-- State at loop entry. -/
def initState : ParseState :=
  { args := [], curr := [], inSingle := false, inDouble := false, escaped := false }

/-- The trailing flush after the loop: emit the pending argument if non-empty. -/
def parseFinish (s : ParseState) : List String :=
  if s.curr.length > 0 then s.args ++ [String.mk s.curr] else s.args

/-- ParseArgs: tokenize one input line into arguments. -/
def ParseArgs (input : String) : List String :=
  parseFinish (parseRun initState input.data)

/-- A character that is plain for the tokenizer: not whitespace, not a quote,
not a backslash. -/
def plainChar (c : Char) : Bool :=
  !(c == ' ' || c == '\t' || c == '\'' || c == '"' || c == '\\')

/-- A plain word: non-empty and made only of plain characters. -/
def plainWord (w : String) : Bool :=
  !w.isEmpty && w.data.all plainChar

/-- Join words with single spaces (the construction used by the round-trip law). -/
def joinWords : List String → String
  | [] => ""
  | [w] => w
  | w :: ws => w ++ " " ++ joinWords ws

/-- A loop state with given arguments and current word and all flags clear. -/
def neutralState (args : List String) (curr : List Char) : ParseState :=
  { args := args, curr := curr, inSingle := false, inDouble := false, escaped := false }

/-! ## PATH resolver (PathFinder.FindExecutable, src/app/pathfinder.go) -/

/-- The part of os.FileInfo that FindExecutable inspects: regularity and the
permission bits of the mode. -/
structure FileInfo where
  isRegular : Bool
  mode : Nat
deriving DecidableEq, Repr

/-- The filesystem as seen through os.Stat: some info on success, none when
Stat errors. -/
def FileSystem := String → Option FileInfo

/-- filepath.Join on a directory and a file name (inputs assumed clean). -/
def filepathJoin (dir name : String) : String := dir ++ "/" ++ name

/-- FindExecutable: walk the search paths in order; accept the first joined
candidate that stats successfully, is regular, and has mode&0111 nonzero.
Returns "" when nothing matches. -/
def FindExecutable (fs : FileSystem) (paths : List String) (command : String) : String :=
  match paths with
  | [] => ""
  | p :: rest =>
    let fp := filepathJoin p command
    match fs fp with
    | some info =>
        if info.isRegular && (info.mode &&& 0o111 != 0) then fp
        else FindExecutable fs rest command
    | none => FindExecutable fs rest command

/-- Spec-side acceptance predicate as the claim words it: exists, regular,
and the owner execute bit (0o100) is set. -/
def ownerExecOK (fs : FileSystem) (p : String) : Bool :=
  match fs p with
  | some info => info.isRegular && (info.mode &&& 0o100 != 0)
  | none => false

/-- Code-side acceptance predicate: exists, regular, and any of the three
execute bits (0o111) is set. -/
def anyExecOK (fs : FileSystem) (p : String) : Bool :=
  match fs p with
  | some info => info.isRegular && (info.mode &&& 0o111 != 0)
  | none => false

/-- A filesystem with a single regular file /d/x whose only permission bit is
others-execute (mode 0o001). -/
def fsOtherExec : FileSystem := fun p =>
  if p = "/d/x" then some { isRegular := true, mode := 0o001 } else none

/-! ## Redirection parsing and the single-command executor
(src/app/executor.go) -/

/-- strings.Contains for a character (String.contains). -/
def goContainsChar (s : String) (c : Char) : Bool := s.data.contains c

/-- strings.Contains on strings: substring containment. -/
def goContainsSub (s sub : String) : Bool := decide (sub.data <:+: s.data)

/-- strings.TrimSuffix: drop the suffix once if present, otherwise unchanged. -/
def goTrimSuffix (s suffix : String) : String :=
  if suffix.data <:+ s.data then
    String.mk (s.data.take (s.data.length - suffix.data.length))
  else s

/-- parseRedirection: examine only the last two arguments; if the
second-to-last contains a character of the operator family, return it as the
operator and the last argument as the target, stripping both. -/
def parseRedirection (args : List String) : String × String × List String :=
  if args.length < 2 then ("", "", args)
  else
    let redirectType := args.getD (args.length - 2) ""
    if goContainsChar redirectType '>' then
      (redirectType, args.getD (args.length - 1) "", args.take (args.length - 2))
    else ("", "", args)

/-- Where a child's stream is wired. -/
inductive Wire where
  | toFile
  | toTerminal
  | captured
  | unset
deriving DecidableEq, Repr

/-- Outcome of the child process, supplied by the environment: whether the
run/Output call succeeded, the captured stdout, what the child wrote to the
captured stderr buffer, and the raw error text on failure. -/
structure ChildOutcome where
  runOk : Bool
  stdout : String
  stderrOut : String
  rawErr : String
deriving DecidableEq, Repr

/-- Observable effects and result of executeExternal. -/
structure ExecTrace where
  ranChild : Bool
  openedFile : Bool
  openCreate : Bool
  appendMode : Bool
  stdoutWire : Wire
  stderrWire : Wire
  output : String
  error : Option String
deriving DecidableEq, Repr

/-- executeExternal: resolve the command on the search path; on failure report
"name: command not found". Otherwise split off a redirection. With a target:
open create-if-absent, append iff the operator contains ">>" else truncate,
wire stdout/stderr per the operator, run the child and return ("", nil)
regardless of its outcome. Without a target: capture stderr, run; on failure
return the stderr buffer if non-empty else the raw error; on success return
stdout with one trailing newline trimmed. openOk/openErrMsg model the
os.OpenFile call's outcome. -/
def executeExternal (fs : FileSystem) (paths : List String) (command : String)
    (args : List String) (openOk : Bool) (openErrMsg : String)
    (child : ChildOutcome) : ExecTrace :=
  let fullPath := FindExecutable fs paths command
  if fullPath = "" then
    { ranChild := false, openedFile := false, openCreate := false,
      appendMode := false, stdoutWire := .unset, stderrWire := .unset,
      output := "", error := some (command ++ ": command not found") }
  else
    let redirectType := (parseRedirection args).1
    let outputFile := (parseRedirection args).2.1
    if outputFile ≠ "" then
      let append := goContainsSub redirectType ">>"
      if !openOk then
        { ranChild := false, openedFile := false, openCreate := false,
          appendMode := append, stdoutWire := .unset, stderrWire := .unset,
          output := "", error := some ("redirect error: " ++ openErrMsg) }
      else
        let wires : Wire × Wire :=
          if redirectType = ">" ∨ redirectType = "1>" ∨ redirectType = ">>" ∨
             redirectType = "1>>" then (.toFile, .toTerminal)
          else if redirectType = "2>" ∨ redirectType = "2>>" then
            (.toTerminal, .toFile)
          else (.unset, .unset)
        { ranChild := true, openedFile := true, openCreate := true,
          appendMode := append, stdoutWire := wires.1, stderrWire := wires.2,
          output := "", error := none }
    else
      if child.runOk then
        { ranChild := true, openedFile := false, openCreate := false,
          appendMode := false, stdoutWire := .captured, stderrWire := .captured,
          output := goTrimSuffix child.stdout "\n", error := none }
      else
        { ranChild := true, openedFile := false, openCreate := false,
          appendMode := false, stdoutWire := .captured, stderrWire := .captured,
          output := "",
          error := some (if child.stderrOut ≠ "" then child.stderrOut
                         else child.rawErr) }

/-! ## Pipeline close bookkeeping (Executor.executePipe, src/app/executor.go)

executePipe builds one OS pipe per adjacent stage pair; pipes[j] has a read
end and a write end. Stage i reads from pipe i-1 (unless first) and writes to
pipe i (unless last). We record every Close call issued on the parent-side
handles: the built-in stage goroutines' deferred closes, then the parent's
write-end sweep, then the parent's read-end sweep. -/

/-- How one pipeline segment is handled after tokenizing: empty segments are
skipped, built-ins run as goroutines, external commands as children (skipped
when unresolvable). -/
inductive StageKind where
  | empty
  | builtin
  | external (resolvable : Bool)
deriving DecidableEq, Repr

/-- One end of an OS pipe. -/
inductive HEnd where
  | rd
  | wr
deriving DecidableEq, Repr

/-- Close calls issued by the built-in stage goroutines: the goroutine for a
built-in stage i closes its stdout handle, which is the write end of pipe i,
unless it is the last stage (stdout is the terminal there). -/
def builtinTaskCloses (stages : List StageKind) : List (Nat × HEnd) :=
  (List.range stages.length).filterMap fun i =>
    if stages.getD i .empty = .builtin ∧ i ≠ stages.length - 1 then
      some (i, HEnd.wr)
    else none

/-- Close calls issued by the parent after starting everything: every write
end once, then (after waiting) every read end once. n is the stage count, so
there are n-1 pipes. -/
def parentCloses (n : Nat) : List (Nat × HEnd) :=
  ((List.range (n - 1)).map fun j => (j, HEnd.wr)) ++
  ((List.range (n - 1)).map fun j => (j, HEnd.rd))

/-- All Close calls of one executePipe invocation (creation succeeded and all
children started). -/
def closeEvents (stages : List StageKind) : List (Nat × HEnd) :=
  builtinTaskCloses stages ++ parentCloses stages.length

/-- How many times a given pipe end is closed. -/
def closeCount (stages : List StageKind) (h : Nat × HEnd) : Nat :=
  (closeEvents stages).count h

/-! ## Completion engine (BellWrapper.Do, src/app/completer.go) -/

/-- removeDuplicates: keep the first occurrence of each string, in order. -/
def removeDuplicatesAux (seen : List String) : List String → List String
  | [] => []
  | s :: rest =>
    if s ∈ seen then removeDuplicatesAux seen rest
    else s :: removeDuplicatesAux (s :: seen) rest

/-- removeDuplicates entry point. -/
def removeDuplicates (l : List String) : List String := removeDuplicatesAux [] l

/-- Lexicographic order on character lists by codepoint (Go's string order:
byte-wise over UTF-8, which coincides with codepoint order). -/
def charListLt : List Char → List Char → Bool
  | [], [] => false
  | [], _ :: _ => true
  | _ :: _, [] => false
  | a :: as, b :: bs =>
    if a.toNat < b.toNat then true
    else if b.toNat < a.toNat then false
    else charListLt as bs

/-- Go's `<` on strings. -/
def stringLt (s t : String) : Bool := charListLt s.data t.data

/-- Insertion into a list sorted by string order. -/
def insertSorted (s : String) : List String → List String
  | [] => [s]
  | t :: rest => if stringLt s t then s :: t :: rest else t :: insertSorted s rest

/-- sort.Slice with `string(matches[i]) < string(matches[j])`: the matches in
ascending string order (insertion sort; the elements are distinct after
dedup, so any comparison sort yields this unique result). -/
def sortStrings (l : List String) : List String := l.foldr insertSorted []

/-- Dedup then sort, as Do does before branching. -/
def processedMatches (inner : List String) : List String :=
  sortStrings (removeDuplicates inner)

/-- ASCII whitespace as trimmed by strings.TrimSpace. -/
def isGoSpace (c : Char) : Bool :=
  c == ' ' || c == '\t' || c == '\n' || c == '\x0B' || c == '\x0C' || c == '\r'

/-- strings.TrimSpace restricted to ASCII whitespace. -/
def goTrimSpace (s : String) : String :=
  String.mk (((s.data.dropWhile isGoSpace).reverse.dropWhile isGoSpace).reverse)

/-- strings.Join. -/
def goJoin (sep : String) : List String → String
  | [] => ""
  | [s] => s
  | s :: rest => s ++ sep ++ goJoin sep rest

/-- The character-comparison loop of longestCommonPrefix: starting at index i
with fuel = minLen - i, advance while every item agrees with the first item;
return the mismatch index. -/
def lcpScan (items : List (List Char)) (x : List Char) (i fuel : Nat) : Nat :=
  match fuel with
  | 0 => i
  | fuel' + 1 =>
    if items.all fun it => it.getD i ' ' == x.getD i ' ' then
      lcpScan items x (i + 1) fuel'
    else i

/-- longestCommonPrefix: empty list gives ("", 0); a singleton is its own
prefix; otherwise compare character by character up to the minimum length. -/
def longestCommonPfx (items : List String) : String × Nat :=
  match items with
  | [] => ("", 0)
  | [x] => (x, x.length)
  | x :: rest =>
    let minLen := rest.foldl (fun m it => if it.length < m then it.length else m)
      x.length
    if minLen = 0 then ("", 0)
    else
      let prefLen := lcpScan (rest.map String.data) x.data 0 minLen
      (String.mk (x.data.take prefLen), prefLen)

/-- What one call of BellWrapper.Do returns and does: the candidate list
handed back to readline (empty for nil), the replacement offset, the text
written to stdout ("" when nothing is printed, "\x07" for the bell), whether
the display was refreshed, and the new tabPress state. -/
structure DoResult where
  returned : List String
  retOffset : Nat
  printed : String
  refreshed : Bool
  tabPress : Bool
deriving DecidableEq, Repr

/-- BellWrapper.Do for a non-nil inner completer: innerMatches/innerOffset
are what Inner.Do returned, line/pos the current input and cursor, tabPress
the stored turn state. -/
def BellWrapperDo (innerMatches : List String) (innerOffset : Nat)
    (line : List Char) (pos : Nat) (tabPress : Bool) : DoResult :=
  let ms := processedMatches innerMatches
  if ms.length = 0 then
    { returned := [], retOffset := 0, printed := "\x07", refreshed := false,
      tabPress := tabPress }
  else if ms.length = 1 then
    { returned := ms, retOffset := innerOffset, printed := "",
      refreshed := false, tabPress := tabPress }
  else
    let lcpRes := longestCommonPfx ms
    let currentWord := String.mk ((line.take pos).drop innerOffset)
    if (0 < lcpRes.2 ∧ currentWord = lcpRes.1 ∧ tabPress = true) ∨
       (lcpRes.2 = 0 ∧ tabPress = true) then
      let pre := String.mk (line.take innerOffset)
      let strs := ms.map fun s => pre ++ goTrimSpace s
      { returned := [], retOffset := 0,
        printed := "\n" ++ goJoin "  " strs ++ "\n", refreshed := true,
        tabPress := false }
    else if 0 < lcpRes.2 then
      { returned := [lcpRes.1], retOffset := innerOffset, printed := "",
        refreshed := false, tabPress := true }
    else
      { returned := [], retOffset := 0, printed := "\x07", refreshed := false,
        tabPress := true }

/-! ## Helper lemmas -/

lemma data_append (s t : String) : (s ++ t).data = s.data ++ t.data := by
  cases s; cases t; rfl

lemma mk_data (s : String) : String.mk s.data = s := by
  cases s; rfl

lemma mk_ne_empty (cs : List Char) (h : 0 < cs.length) : String.mk cs ≠ "" := by
  intro hcon
  have hdata : cs = [] := by
    have := congrArg String.data hcon
    simpa using this
  simp [hdata] at h

/-- On a plain character with neutral flags, the loop body just appends the
character to the current argument. -/
lemma parseStep_plain (args : List String) (curr : List Char) (c : Char)
    (h : plainChar c = true) :
    parseStep (neutralState args curr) c = neutralState args (curr ++ [c]) := by
  simp only [plainChar, Bool.not_eq_true', Bool.or_eq_false_iff,
    beq_eq_false_iff_ne, ne_eq] at h
  obtain ⟨⟨⟨⟨h1, h2⟩, h3⟩, h4⟩, h5⟩ := h
  simp [parseStep, neutralState, h1, h2, h3, h4, h5]

/-- A space with neutral flags and a non-empty current argument flushes it. -/
lemma parseStep_space (args : List String) (curr : List Char) (h : curr ≠ []) :
    parseStep (neutralState args curr) ' ' =
      neutralState (args ++ [String.mk curr]) [] := by
  have hlen : 0 < curr.length := List.length_pos.mpr h
  simp [parseStep, neutralState, hlen]

lemma parseRun_append (s : ParseState) (l1 l2 : List Char) :
    parseRun s (l1 ++ l2) = parseRun (parseRun s l1) l2 := by
  simp [parseRun, List.foldl_append]

/-- Running the loop over plain characters from neutral flags appends them
all to the current argument. -/
lemma parseRun_plain (args : List String) (curr : List Char) (cs : List Char)
    (h : cs.all plainChar = true) :
    parseRun (neutralState args curr) cs = neutralState args (curr ++ cs) := by
  induction cs generalizing curr with
  | nil => simp [parseRun]
  | cons c cs ih =>
    simp only [List.all_cons, Bool.and_eq_true] at h
    have hstep := parseStep_plain args curr c h.1
    calc parseRun (neutralState args curr) (c :: cs)
        = parseRun (neutralState args (curr ++ [c])) cs := by
          simp [parseRun, hstep]
      _ = neutralState args ((curr ++ [c]) ++ cs) := ih (curr ++ [c]) h.2
      _ = neutralState args (curr ++ (c :: cs)) := by simp

/-- Tokenizing words joined by single spaces, starting with an empty current
argument, emits exactly those words after the already-emitted arguments. -/
lemma parseRun_joinWords (args : List String) (ws : List String)
    (hw : ∀ w ∈ ws, plainWord w = true) (hne : ws ≠ []) :
    parseFinish (parseRun (neutralState args []) (joinWords ws).data) =
      args ++ ws := by
  induction ws generalizing args with
  | nil => exact absurd rfl hne
  | cons w ws ih =>
    have hww : plainWord w = true := hw w (by simp)
    simp only [plainWord, Bool.and_eq_true, Bool.not_eq_true'] at hww
    have hwdata : w.data ≠ [] := by
      intro hcon
      have hwe : w = "" := by
        cases w
        simp only at hcon
        rw [hcon]
      rw [hwe] at hww
      exact absurd hww.1 (by decide)
    cases ws with
    | nil =>
      have hjoin : joinWords [w] = w := rfl
      rw [hjoin, parseRun_plain args [] w.data hww.2]
      simp only [List.nil_append, parseFinish, neutralState]
      rw [if_pos (List.length_pos.mpr hwdata)]
    | cons w' ws' =>
      have hjoin : joinWords (w :: w' :: ws') = w ++ " " ++ joinWords (w' :: ws') :=
        rfl
      have hdata : (w ++ " " ++ joinWords (w' :: ws')).data =
          w.data ++ (' ' :: (joinWords (w' :: ws')).data) := by
        rw [data_append, data_append]
        simp
      rw [hjoin, hdata, parseRun_append]
      rw [parseRun_plain args [] w.data hww.2]
      have hsp : parseRun (neutralState args ([] ++ w.data))
            (' ' :: (joinWords (w' :: ws')).data) =
          parseRun (neutralState (args ++ [w]) [])
            (joinWords (w' :: ws')).data := by
        simp only [List.nil_append, parseRun, List.foldl_cons]
        rw [parseStep_space args w.data hwdata, mk_data]
      rw [hsp, ih (args ++ [w]) (fun x hx => hw x (by simp [hx])) (by simp)]
      simp

/-- The loop body either leaves the emitted arguments unchanged or appends
the current (non-empty) argument. -/
lemma parseStep_args (s : ParseState) (c : Char) :
    (parseStep s c).args = s.args ∨
      ((parseStep s c).args = s.args ++ [String.mk s.curr] ∧ 0 < s.curr.length) := by
  unfold parseStep
  split_ifs <;> simp_all

lemma parseRun_args_nonempty (s : ParseState) (cs : List Char)
    (h : ∀ w ∈ s.args, w ≠ "") : ∀ w ∈ (parseRun s cs).args, w ≠ "" := by
  induction cs generalizing s with
  | nil => exact h
  | cons c cs ih =>
    have hstep : ∀ w ∈ (parseStep s c).args, w ≠ "" := by
      rcases parseStep_args s c with heq | ⟨heq, hlen⟩
      · rw [heq]; exact h
      · rw [heq]
        intro w hw
        rcases List.mem_append.mp hw with h1 | h2
        · exact h w h1
        · rw [List.mem_singleton] at h2
          rw [h2]
          exact mk_ne_empty _ hlen
    have : parseRun s (c :: cs) = parseRun (parseStep s c) cs := by
      simp [parseRun]
    rw [this]
    exact ih _ hstep

lemma parseFinish_nonempty (s : ParseState) (h : ∀ w ∈ s.args, w ≠ "") :
    ∀ w ∈ parseFinish s, w ≠ "" := by
  unfold parseFinish
  split
  next hlen =>
    intro w hw
    rcases List.mem_append.mp hw with h1 | h2
    · exact h w h1
    · rw [List.mem_singleton] at h2
      rw [h2]
      exact mk_ne_empty _ hlen
  next => exact h

/-! ## Claim theorems: tokenizer -/

/-- Claim C4: a quote character that enters or exits a quote mode contributes no
character to the output and does not terminate the current argument (the
emitted arguments and the current word are unchanged; only the mode bit
toggles), so adjacent quoted/unquoted fragments concatenate; in particular
tokenizing `'a''b'c''d''e'f` yields the single argument `abcdef`. -/
theorem quote_transparency :
    (∀ s : ParseState, s.escaped = false → s.inDouble = false →
      parseStep s '\'' = { s with inSingle := !s.inSingle }) ∧
    (∀ s : ParseState, s.escaped = false → s.inSingle = false →
      parseStep s '"' = { s with inDouble := !s.inDouble }) ∧
    ParseArgs "'a''b'c''d''e'f" = ["abcdef"] := by
  refine ⟨?_, ?_, by decide⟩
  · intro s h1 h2
    simp [parseStep, h1, h2]
  · intro s h1 h2
    simp [parseStep, h1, h2]

/-- Witness for C4 at a concrete state and the concrete adjacency equation. -/
theorem quote_transparency_witness :
    parseStep { args := ["x"], curr := ['a'], inSingle := false, inDouble := false,
                escaped := false } '\'' =
      { args := ["x"], curr := ['a'], inSingle := true, inDouble := false,
        escaped := false } := by
  have h := quote_transparency.1
    { args := ["x"], curr := ['a'], inSingle := false, inDouble := false,
      escaped := false } rfl rfl
  simpa using h

/-- Claim C5: inside double quotes, a backslash followed by a backslash or a double
quote emits exactly that one literal character, and a backslash followed by
any other character emits a literal backslash and then that character
unchanged; the spec's example line evaluates accordingly. -/
theorem double_quote_escape :
    (∀ (s : ParseState) (c : Char), s.escaped = true → s.inDouble = true →
      ((c = '\\' ∨ c = '"') →
        parseStep s c = { s with curr := s.curr ++ [c], escaped := false }) ∧
      (c ≠ '\\' → c ≠ '"' →
        parseStep s c = { s with curr := s.curr ++ ['\\', c], escaped := false })) ∧
    ParseArgs "echo \"A \\ escapes itself\"" = ["echo", "A \\ escapes itself"] := by
  refine ⟨?_, by decide⟩
  intro s c h1 h2
  constructor
  · rintro (rfl | rfl) <;> simp [parseStep, h1, h2]
  · intro hc1 hc2
    simp [parseStep, h1, h2, hc1, hc2]

/-- Witness for C5 at a concrete state (backslash before a space inside
double quotes keeps both characters). -/
theorem double_quote_escape_witness :
    parseStep { args := [], curr := ['A'], inSingle := false, inDouble := true,
                escaped := true } ' ' =
      { args := [], curr := ['A', '\\', ' '], inSingle := false, inDouble := true,
        escaped := false } := by
  have h := (double_quote_escape.1
    { args := [], curr := ['A'], inSingle := false, inDouble := true,
      escaped := true } ' ' rfl rfl).2 (by decide) (by decide)
  simpa using h

/-- Claim C6: tokenizing any non-empty sequence of non-empty plain words (no
whitespace, quotes, or backslashes) joined by single spaces recovers exactly
that sequence. -/
theorem tokenize_join_roundtrip (ws : List String)
    (hw : ∀ w ∈ ws, plainWord w = true) (hne : ws ≠ []) :
    ParseArgs (joinWords ws) = ws := by
  have h := parseRun_joinWords [] ws hw hne
  simpa [ParseArgs, initState, neutralState] using h

/-- Witness for C6 on a concrete word sequence. -/
theorem tokenize_join_roundtrip_witness :
    ParseArgs (joinWords ["echo", "a", "b"]) = ["echo", "a", "b"] :=
  tokenize_join_roundtrip ["echo", "a", "b"] (by decide) (by decide)

/-- Claim C10: every argument the tokenizer emits is non-empty; in particular a
lone empty-quote token contributes no argument at all, for both quote kinds. -/
theorem tokenize_no_empty_args :
    (∀ (input : String), ∀ w ∈ ParseArgs input, w ≠ "") ∧
    ParseArgs "a '' b" = ["a", "b"] ∧
    ParseArgs "a \"\" b" = ["a", "b"] := by
  refine ⟨?_, by decide, by decide⟩
  intro input w hw
  have hrun : ∀ x ∈ (parseRun initState input.data).args, x ≠ "" :=
    parseRun_args_nonempty initState input.data (by simp [initState])
  exact parseFinish_nonempty _ hrun w hw

/-- Witness for C10: a concrete emitted argument is non-empty. -/
theorem tokenize_no_empty_args_witness : ("a" : String) ≠ "" :=
  tokenize_no_empty_args.1 "a '' b" "a" (by decide)

/-! ## Claim theorems: redirection parsing and path resolution -/

/-- Claim C7: parseRedirection looks only at the last two arguments: with at least
two arguments and a second-to-last containing a greater-than character it
returns that element as operator and the last as target, stripping both; in
every other arrangement (fewer than two arguments, or a second-to-last
without a greater-than) it reports no redirection and leaves the arguments
unchanged. -/
theorem parseRedirection_spec (args : List String) :
    (args.length < 2 → parseRedirection args = ("", "", args)) ∧
    (2 ≤ args.length →
      (goContainsChar (args.getD (args.length - 2) "") '>' = true →
        parseRedirection args =
          (args.getD (args.length - 2) "", args.getD (args.length - 1) "",
            args.take (args.length - 2))) ∧
      (goContainsChar (args.getD (args.length - 2) "") '>' = false →
        parseRedirection args = ("", "", args))) := by
  unfold parseRedirection
  constructor
  · intro h
    rw [if_pos h]
  · intro h
    have hnot : ¬ args.length < 2 := by omega
    constructor
    · intro hc
      rw [if_neg hnot]
      simp only [hc, if_pos]
    · intro hc
      rw [if_neg hnot]
      simp only [hc]
      rw [if_neg (by simp)]

/-- Witness for C7: an operator-target pair is stripped; a lone trailing
greater-than token with no following path is left untouched. -/
theorem parseRedirection_spec_witness :
    parseRedirection ["echo", "hi", ">", "f.txt"] = (">", "f.txt", ["echo", "hi"]) ∧
    parseRedirection ["echo", ">"] = ("", "", ["echo", ">"]) := by
  constructor
  · have h := ((parseRedirection_spec ["echo", "hi", ">", "f.txt"]).2
      (by decide)).1 (by decide)
    simpa using h
  · have h := ((parseRedirection_spec ["echo", ">"]).2 (by decide)).2 (by decide)
    simpa using h

/-- Claim C3 counterexample: on a filesystem whose only candidate /d/x is a regular
file with mode 0o001 (no owner execute bit, only others-execute),
FindExecutable still returns /d/x, although no directory yields a candidate
with an owner execute bit — so the claim's owner-bit reading of the
acceptance test is false at this input. -/
theorem findExecutable_owner_bit_cex :
    FindExecutable fsOtherExec ["/d"] "x" = "/d/x" ∧
    (["/d"].all fun d => !(ownerExecOK fsOtherExec (filepathJoin d "x"))) = true ∧
    FindExecutable fsOtherExec ["/d"] "x" ≠ "" := by
  refine ⟨by decide, by decide, by decide⟩

/-- Claim C3 amended: FindExecutable returns the candidate joined from the first
directory (in search order) whose candidate exists, is a regular file, and
has at least one execute permission bit set among owner, group, and others
(mode & 0o111 nonzero); when no directory yields such a candidate it returns
the empty string. -/
theorem findExecutable_first_match (fs : FileSystem) (paths : List String)
    (command : String) :
    FindExecutable fs paths command =
      match paths.find? (fun d => anyExecOK fs (filepathJoin d command)) with
      | some d => filepathJoin d command
      | none => "" := by
  induction paths with
  | nil => rfl
  | cons p rest ih =>
    by_cases hacc : anyExecOK fs (filepathJoin p command) = true
    · unfold FindExecutable
      simp only [List.find?, hacc]
      cases hfs : fs (filepathJoin p command) with
      | none =>
        unfold anyExecOK at hacc
        rw [hfs] at hacc
        have hcon : (false : Bool) = true := hacc
        simp at hcon
      | some info =>
        unfold anyExecOK at hacc
        rw [hfs] at hacc
        have hcond : (info.isRegular && (info.mode &&& 0o111 != 0)) = true := hacc
        simp [hcond]
    · have haccf : anyExecOK fs (filepathJoin p command) = false := by
        simpa using hacc
      unfold FindExecutable
      simp only [List.find?, haccf]
      cases hfs : fs (filepathJoin p command) with
      | none => exact ih
      | some info =>
        unfold anyExecOK at haccf
        rw [hfs] at haccf
        have hcond : (info.isRegular && (info.mode &&& 0o111 != 0)) = false := haccf
        simp [hcond, ih]

/-! ## Claim theorems: single-command executor -/

/-- Claim C2: for a resolvable command whose parsed arguments contain a redirection
target and whose target file opens successfully, executeExternal opens the
file create-if-absent, in append mode exactly when the operator contains
">>" (truncate otherwise), wires stdout to the file and stderr to the
terminal for operators >, 1>, >>, 1>>, and stderr to the file and stdout to
the terminal for 2>, 2>>, runs the child to completion, and returns empty
output and no error regardless of the child's outcome (the child is
universally quantified). -/
theorem executeExternal_redirected_spec (fs : FileSystem) (paths : List String)
    (command : String) (args : List String) (openErrMsg : String)
    (child : ChildOutcome)
    (hfind : FindExecutable fs paths command ≠ "")
    (htarget : (parseRedirection args).2.1 ≠ "") :
    (executeExternal fs paths command args true openErrMsg child).openedFile = true ∧
    (executeExternal fs paths command args true openErrMsg child).openCreate = true ∧
    ((executeExternal fs paths command args true openErrMsg child).appendMode = true ↔
      ">>".data <:+: (parseRedirection args).1.data) ∧
    ((parseRedirection args).1 = ">" ∨ (parseRedirection args).1 = "1>" ∨
        (parseRedirection args).1 = ">>" ∨ (parseRedirection args).1 = "1>>" →
      (executeExternal fs paths command args true openErrMsg child).stdoutWire =
          Wire.toFile ∧
        (executeExternal fs paths command args true openErrMsg child).stderrWire =
          Wire.toTerminal) ∧
    ((parseRedirection args).1 = "2>" ∨ (parseRedirection args).1 = "2>>" →
      (executeExternal fs paths command args true openErrMsg child).stderrWire =
          Wire.toFile ∧
        (executeExternal fs paths command args true openErrMsg child).stdoutWire =
          Wire.toTerminal) ∧
    (executeExternal fs paths command args true openErrMsg child).ranChild = true ∧
    (executeExternal fs paths command args true openErrMsg child).output = "" ∧
    (executeExternal fs paths command args true openErrMsg child).error = none := by
  have hexe : executeExternal fs paths command args true openErrMsg child =
      { ranChild := true, openedFile := true, openCreate := true,
        appendMode := goContainsSub (parseRedirection args).1 ">>",
        stdoutWire :=
          (if (parseRedirection args).1 = ">" ∨ (parseRedirection args).1 = "1>" ∨
              (parseRedirection args).1 = ">>" ∨ (parseRedirection args).1 = "1>>" then
            ((Wire.toFile, Wire.toTerminal) : Wire × Wire)
          else if (parseRedirection args).1 = "2>" ∨ (parseRedirection args).1 = "2>>"
            then (Wire.toTerminal, Wire.toFile)
          else (Wire.unset, Wire.unset)).1,
        stderrWire :=
          (if (parseRedirection args).1 = ">" ∨ (parseRedirection args).1 = "1>" ∨
              (parseRedirection args).1 = ">>" ∨ (parseRedirection args).1 = "1>>" then
            ((Wire.toFile, Wire.toTerminal) : Wire × Wire)
          else if (parseRedirection args).1 = "2>" ∨ (parseRedirection args).1 = "2>>"
            then (Wire.toTerminal, Wire.toFile)
          else (Wire.unset, Wire.unset)).2,
        output := "", error := none } := by
    simp [executeExternal, hfind, htarget]
  refine ⟨by simp [hexe], by simp [hexe], ?_, ?_, ?_, by simp [hexe],
    by simp [hexe], by simp [hexe]⟩
  · simp [hexe, goContainsSub]
  · intro hop
    rw [hexe, if_pos hop]
    exact ⟨rfl, rfl⟩
  · rintro (hop | hop) <;> rw [hexe, hop] <;>
      rw [if_neg (by decide), if_pos (by decide)] <;> exact ⟨rfl, rfl⟩

/-- Witness for C2 at a concrete redirected invocation with a failing child:
empty output, no error, stdout wired to the file. -/
theorem executeExternal_redirected_spec_witness :
    (executeExternal fsOtherExec ["/d"] "x" ["hi", ">", "f"] true ""
        { runOk := false, stdout := "", stderrOut := "", rawErr := "boom" }).output
      = "" ∧
    (executeExternal fsOtherExec ["/d"] "x" ["hi", ">", "f"] true ""
        { runOk := false, stdout := "", stderrOut := "", rawErr := "boom" }).error
      = none ∧
    (executeExternal fsOtherExec ["/d"] "x" ["hi", ">", "f"] true ""
        { runOk := false, stdout := "", stderrOut := "", rawErr := "boom" }).stdoutWire
      = Wire.toFile := by
  have h := executeExternal_redirected_spec fsOtherExec ["/d"] "x"
    ["hi", ">", "f"] ""
    { runOk := false, stdout := "", stderrOut := "", rawErr := "boom" }
    (by decide) (by decide)
  exact ⟨h.2.2.2.2.2.2.1, h.2.2.2.2.2.2.2, (h.2.2.2.1 (Or.inl (by decide))).1⟩

/-- Claim C8: with no redirection target, executeExternal captures stderr and: on
child failure returns the captured stderr as the error when non-empty and the
raw failure otherwise; on success returns the captured stdout with exactly
one trailing newline stripped; and an unresolvable command yields exactly
the error "name: command not found". -/
theorem executeExternal_noredir_spec (fs : FileSystem) (paths : List String)
    (command : String) (args : List String) (openOk : Bool)
    (openErrMsg : String) (child : ChildOutcome) :
    (FindExecutable fs paths command = "" →
      executeExternal fs paths command args openOk openErrMsg child =
        { ranChild := false, openedFile := false, openCreate := false,
          appendMode := false, stdoutWire := Wire.unset, stderrWire := Wire.unset,
          output := "", error := some (command ++ ": command not found") }) ∧
    (FindExecutable fs paths command ≠ "" → (parseRedirection args).2.1 = "" →
      (child.runOk = true →
        executeExternal fs paths command args openOk openErrMsg child =
          { ranChild := true, openedFile := false, openCreate := false,
            appendMode := false, stdoutWire := Wire.captured,
            stderrWire := Wire.captured,
            output := goTrimSuffix child.stdout "\n", error := none }) ∧
      (child.runOk = false → child.stderrOut ≠ "" →
        executeExternal fs paths command args openOk openErrMsg child =
          { ranChild := true, openedFile := false, openCreate := false,
            appendMode := false, stdoutWire := Wire.captured,
            stderrWire := Wire.captured,
            output := "", error := some child.stderrOut }) ∧
      (child.runOk = false → child.stderrOut = "" →
        executeExternal fs paths command args openOk openErrMsg child =
          { ranChild := true, openedFile := false, openCreate := false,
            appendMode := false, stdoutWire := Wire.captured,
            stderrWire := Wire.captured,
            output := "", error := some child.rawErr })) := by
  constructor
  · intro h
    simp [executeExternal, h]
  · intro hfind hno
    have hnotarget : ¬ (parseRedirection args).2.1 ≠ "" := by simp [hno]
    refine ⟨?_, ?_, ?_⟩
    · intro hrun
      simp [executeExternal, hfind, hnotarget, hrun]
    · intro hrun hse
      simp [executeExternal, hfind, hnotarget, hrun, hse]
    · intro hrun hse
      simp [executeExternal, hfind, hnotarget, hrun, hse]

/-- Witness for C8: the spec's missing-command literal, and trailing-newline
stripping on a successful run. -/
theorem executeExternal_noredir_spec_witness :
    (executeExternal fsOtherExec [] "doesnotexist123" [] true ""
        { runOk := true, stdout := "", stderrOut := "", rawErr := "" }).error =
      some "doesnotexist123: command not found" ∧
    (executeExternal fsOtherExec ["/d"] "x" [] true ""
        { runOk := true, stdout := "out\n", stderrOut := "", rawErr := "" }).output =
      "out" := by
  constructor
  · have h := (executeExternal_noredir_spec fsOtherExec [] "doesnotexist123" []
      true "" { runOk := true, stdout := "", stderrOut := "", rawErr := "" }).1 rfl
    rw [h]
    decide
  · have h := ((executeExternal_noredir_spec fsOtherExec ["/d"] "x" [] true ""
      { runOk := true, stdout := "out\n", stderrOut := "", rawErr := "" }).2
      (by decide) (by decide)).1 rfl
    rw [h]
    decide

/-! ## Claim theorems: pipeline close bookkeeping -/

lemma count_range (m j : Nat) : (List.range m).count j = if j < m then 1 else 0 := by
  induction m with
  | zero => simp
  | succ m ih =>
    rw [List.range_succ, List.count_append, ih, List.count_singleton']
    split_ifs <;> omega

lemma count_pair_singleton (n j : Nat) (e : HEnd) :
    List.count (j, e) [(n, e)] = if j = n then 1 else 0 := by
  by_cases hj : j = n
  · subst hj
    simp
  · simp [List.count_cons, Ne.symm hj, hj]

lemma count_pair_map_range (m j : Nat) (e : HEnd) :
    (((List.range m).map fun i => (i, e)).count (j, e)) = if j < m then 1 else 0 := by
  induction m with
  | zero => simp
  | succ m ih =>
    rw [List.range_succ, List.map_append, List.count_append, ih]
    simp only [List.map_cons, List.map_nil]
    rw [count_pair_singleton]
    split_ifs <;> omega

lemma count_pair_map_range_ne (m j : Nat) (e e' : HEnd) (h : e' ≠ e) :
    (((List.range m).map fun i => (i, e)).count (j, e')) = 0 := by
  rw [List.count_eq_zero]
  intro hmem
  simp only [List.mem_map, Prod.mk.injEq] at hmem
  obtain ⟨i, _, _, he⟩ := hmem
  exact h he.symm

lemma count_filterMap_if (n j : Nat) (P : Nat → Prop) [DecidablePred P] :
    (((List.range n).filterMap fun i =>
        if P i then some (i, HEnd.wr) else none).count (j, HEnd.wr)) =
      if j < n ∧ P j then 1 else 0 := by
  induction n with
  | zero => simp
  | succ n ih =>
    rw [List.range_succ, List.filterMap_append, List.count_append, ih]
    by_cases hP : P n
    · rw [show (([n] : List Nat).filterMap fun i =>
          if P i then some (i, HEnd.wr) else none) = [(n, HEnd.wr)] by
        simp [List.filterMap_cons, hP]]
      rw [count_pair_singleton]
      by_cases hj : j = n
      · subst hj
        rw [if_neg (fun h => absurd h.1 (Nat.lt_irrefl j)), if_pos rfl,
          if_pos ⟨Nat.lt_succ_self j, hP⟩]
      · rw [if_neg hj]
        have hiff : (j < n ∧ P j) ↔ (j < n + 1 ∧ P j) := by
          constructor
          · rintro ⟨h1, h2⟩
            exact ⟨by omega, h2⟩
          · rintro ⟨h1, h2⟩
            exact ⟨by omega, h2⟩
        rw [Nat.add_zero, if_congr hiff rfl rfl]
    · rw [show (([n] : List Nat).filterMap fun i =>
          if P i then some (i, HEnd.wr) else none) = [] by
        simp [List.filterMap_cons, hP]]
      rw [List.count_nil, Nat.add_zero]
      have hiff : (j < n ∧ P j) ↔ (j < n + 1 ∧ P j) := by
        constructor
        · rintro ⟨h1, h2⟩
          exact ⟨by omega, h2⟩
        · rintro ⟨h1, h2⟩
          refine ⟨?_, h2⟩
          by_cases hj : j = n
          · subst hj
            exact absurd h2 hP
          · omega
      rw [if_congr hiff rfl rfl]

lemma count_builtinCloses_rd (stages : List StageKind) (j : Nat) :
    (builtinTaskCloses stages).count (j, HEnd.rd) = 0 := by
  rw [List.count_eq_zero]
  intro hmem
  unfold builtinTaskCloses at hmem
  rw [List.mem_filterMap] at hmem
  obtain ⟨i, _, hif⟩ := hmem
  split at hif <;> simp at hif

/-- Claim C1 counterexample: in the two-stage pipeline "built-in | external"
(e.g. `echo hi | wc`), the write end of pipe 0 is closed twice — once by the
built-in stage's goroutine and once by the parent's write-end sweep — so not
every pipe handle is closed exactly once. -/
theorem pipeline_close_exactly_once_cex :
    closeCount [StageKind.builtin, StageKind.external true] (0, HEnd.wr) = 2 := by
  decide

/-- Claim C1 amended: for every pipeline and every pipe index j, the read end of
pipe j is closed exactly once (by the parent), and the write end of pipe j is
closed exactly once when stage j is not a built-in, but twice when stage j is
a built-in (goroutine close plus parent sweep). -/
theorem pipeline_close_counts (stages : List StageKind) (j : Nat)
    (hj : j < stages.length - 1) :
    closeCount stages (j, HEnd.rd) = 1 ∧
    closeCount stages (j, HEnd.wr) =
      (if stages.getD j .empty = .builtin then 2 else 1) := by
  unfold closeCount closeEvents parentCloses
  constructor
  · rw [List.count_append, List.count_append]
    rw [count_builtinCloses_rd]
    rw [count_pair_map_range_ne _ _ _ _ (by decide)]
    rw [count_pair_map_range]
    rw [if_pos hj]
  · rw [List.count_append, List.count_append]
    unfold builtinTaskCloses
    rw [count_filterMap_if]
    rw [count_pair_map_range, if_pos (by omega : j < stages.length - 1)]
    rw [count_pair_map_range_ne _ _ _ _ (by decide)]
    by_cases hb : stages.getD j .empty = .builtin
    · rw [if_pos ⟨by omega, hb, by omega⟩, if_pos hb]
    · rw [if_neg (fun h => hb h.2.1), if_neg hb]

/-- Witness for C1's amended claim on a concrete all-external pipeline. -/
theorem pipeline_close_counts_witness :
    closeCount [StageKind.external true, StageKind.external true] (0, HEnd.rd) = 1 ∧
    closeCount [StageKind.external true, StageKind.external true] (0, HEnd.wr) =
      (if ([StageKind.external true,
            StageKind.external true].getD 0 .empty = .builtin) then 2 else 1) :=
  pipeline_close_counts [StageKind.external true, StageKind.external true] 0
    (by decide)

/-! ## Claim theorems: completion engine -/

lemma lcpScan_le (items : List (List Char)) (x : List Char) (i fuel : Nat) :
    lcpScan items x i fuel ≤ i + fuel := by
  induction fuel generalizing i with
  | zero => simp [lcpScan]
  | succ fuel ih =>
    unfold lcpScan
    split
    · have h := ih (i + 1)
      omega
    · omega

lemma foldl_min_le (rest : List String) (init : Nat) :
    rest.foldl (fun m it => if it.length < m then it.length else m) init ≤ init := by
  induction rest generalizing init with
  | nil => simp
  | cons a rest ih =>
    simp only [List.foldl_cons]
    refine le_trans (ih _) ?_
    split <;> omega

/-- The string component of longestCommonPfx has exactly the returned length. -/
lemma longestCommonPfx_length (items : List String) :
    (longestCommonPfx items).1.length = (longestCommonPfx items).2 := by
  cases items with
  | nil => rfl
  | cons x rest =>
    cases rest with
    | nil => rfl
    | cons y rest' =>
      simp only [longestCommonPfx]
      split
      · rfl
      next hmin =>
        have h1 := lcpScan_le ((y :: rest').map String.data) x.data 0
          ((y :: rest').foldl (fun m it => if it.length < m then it.length else m)
            x.length)
        have h2 := foldl_min_le (y :: rest') x.length
        have hxl : x.length = x.data.length := rfl
        show (x.data.take _).length = _
        rw [List.length_take]
        omega

/-- Claim C9 counterexample: at the second consecutive press with candidates echo
and exit, the partial word e equal to the LCP, the engine prints the sorted
candidates joined by two spaces on one line (framed by newlines), not a
newline-joined listing. -/
theorem completion_listing_not_newline_cex :
    (BellWrapperDo ["echo", "exit"] 0 ['e'] 1 true).printed = "\necho  exit\n" ∧
    (BellWrapperDo ["echo", "exit"] 0 ['e'] 1 true).printed ≠
      "\n" ++ goJoin "\n" ["echo", "exit"] ++ "\n" := by
  refine ⟨by decide, by decide⟩

/-- Claim C9 amended: with at least two deduplicated matches, a press with a
non-empty LCP strictly longer than the typed partial word inserts the LCP as
the sole replacement and arms the turn state; a second consecutive press
whose partial word already equals the LCP (or whose LCP is empty) inserts
nothing, resets the turn state, and prints the full sorted candidate list,
each candidate prefixed by the text preceding the partial word, joined by
two spaces and framed by a leading and a trailing newline. -/
theorem completion_two_press_spec (inner : List String) (off : Nat)
    (line : List Char) (pos : Nat) (tab : Bool)
    (hlen : 2 ≤ (processedMatches inner).length) :
    ((longestCommonPfx (processedMatches inner)).1 ≠ "" →
      (String.mk ((line.take pos).drop off)).length <
          (longestCommonPfx (processedMatches inner)).1.length →
      BellWrapperDo inner off line pos tab =
        { returned := [(longestCommonPfx (processedMatches inner)).1],
          retOffset := off, printed := "", refreshed := false, tabPress := true }) ∧
    (tab = true →
      (String.mk ((line.take pos).drop off) =
            (longestCommonPfx (processedMatches inner)).1 ∧
          0 < (longestCommonPfx (processedMatches inner)).2) ∨
        (longestCommonPfx (processedMatches inner)).2 = 0 →
      BellWrapperDo inner off line pos tab =
        { returned := [], retOffset := 0,
          printed := "\n" ++ goJoin "  "
            ((processedMatches inner).map fun s =>
              String.mk (line.take off) ++ goTrimSpace s) ++ "\n",
          refreshed := true, tabPress := false }) := by
  have hn0 : ¬ (processedMatches inner).length = 0 := by omega
  have hn1 : ¬ (processedMatches inner).length = 1 := by omega
  have hlcplen := longestCommonPfx_length (processedMatches inner)
  constructor
  · intro hne hlonger
    have h0 : 0 < (longestCommonPfx (processedMatches inner)).2 := by omega
    have hcw : String.mk ((line.take pos).drop off) ≠
        (longestCommonPfx (processedMatches inner)).1 := by
      intro hcon
      rw [hcon] at hlonger
      omega
    simp only [BellWrapperDo]
    rw [if_neg hn0, if_neg hn1]
    rw [if_neg (by
      rintro (⟨_, hc, _⟩ | ⟨hc, _⟩)
      · exact hcw hc
      · omega)]
    rw [if_pos h0]
  · intro htab hcond
    simp only [BellWrapperDo]
    rw [if_neg hn0, if_neg hn1]
    rw [if_pos (by
      rcases hcond with ⟨hcw, h0⟩ | h0
      · exact Or.inl ⟨h0, hcw, htab⟩
      · exact Or.inr ⟨h0, htab⟩)]

/-- Witness for C9's amended claim: a first press extending ec to echo, and a
second press listing echo and exit. -/
theorem completion_two_press_spec_witness :
    BellWrapperDo ["echo", "echotest"] 0 ['e', 'c'] 2 false =
      { returned := ["echo"], retOffset := 0, printed := "", refreshed := false,
        tabPress := true } ∧
    BellWrapperDo ["echo", "exit"] 0 ['e'] 1 true =
      { returned := [], retOffset := 0, printed := "\necho  exit\n",
        refreshed := true, tabPress := false } := by
  constructor
  · have h := (completion_two_press_spec ["echo", "echotest"] 0 ['e', 'c'] 2 false
      (by decide)).1 (by decide) (by decide)
    rw [h]
    decide
  · have h := (completion_two_press_spec ["echo", "exit"] 0 ['e'] 1 true
      (by decide)).2 rfl (Or.inl ⟨by decide, by decide⟩)
    rw [h]
    decide

end Shell
